import Mathlib

/-!
Verification development for the document-processing pipeline repository
(`pipeline/function_app.py`) and its durable workflow engine as specified.

The repository's own code (HTTP starter, Event Grid starter, the `orchestrator`
fan-out, the `ProcessBlob` child orchestration) is embedded directly from
`src/pipeline/function_app.py`.  The durable engine underneath it (Event Log,
Replay Engine, Orchestration Scheduler, Fan-out/Fan-in Coordinator) is not part
of the repository source; those components are modelled from the spec, and each
such definition is marked `Modelled from the spec:` in its doc comment.
-/

namespace Pipeline

/-- A JSON-like value, the payload type flowing through triggers, orchestrations
and activities.  Objects are association lists of string keys. -/
inductive Json where
  | null : Json
  | bool (b : Bool) : Json
  | num (n : Int) : Json
  | str (s : String) : Json
  | arr (items : List Json) : Json
  | obj (fields : List (String × Json)) : Json

/-- Looks up key `k` in a JSON object's field list (Python `dict` access:
first matching key). -/
def lookupField (fields : List (String × Json)) (k : String) : Option Json :=
  match fields with
  | [] => none
  | (k', v) :: rest => if k' = k then some v else lookupField rest k

/-- The reject reasons of `start_orchestrator_http`, one per `return
func.HttpResponse(..., status_code=400)` site in the source. -/
inductive RejectReason where
  | invalidJson : RejectReason
  | blobsNotNonEmptyList : RejectReason
  | blobNotObject (i : Nat) : RejectReason
  | blobBadFields (i : Nat) : RejectReason
deriving DecidableEq

/-- Outcome of the HTTP starter: a synchronous 400 rejection, a started
orchestration (the check-status response), or an unhandled exception (the
source calls `body.get` which raises when the parsed body is not a dict). -/
inductive HttpOutcome where
  | invalidInput (r : RejectReason) : HttpOutcome
  | started (blobs : List Json) : HttpOutcome
  | appError : HttpOutcome

/-- The required blob-record keys, from `required = ("name", "url", "container")`. -/
def requiredKeys : List String := ["name", "url", "container"]

/-- Truthiness of Python `s.strip()`: the stripped string is non-empty iff
some character of `s` is not whitespace. -/
def stripTruthy (s : String) : Bool :=
  s.data.any (fun c => !c.isWhitespace)

/-- One required-key check from the source's validation loop:
`k not in b or not isinstance(b[k], str) or not b[k].strip()` negated. -/
def blobFieldOk (fields : List (String × Json)) (k : String) : Bool :=
  match lookupField fields k with
  | some (Json.str s) => stripTruthy s
  | some _ => false
  | none => false

/-- One iteration of the source's validation loop over `blobs`:
an element passes iff it is a dict whose three required keys map to
non-empty (after strip) strings. -/
def blobElemOk (b : Json) : Bool :=
  match b with
  | Json.obj fields => requiredKeys.all (blobFieldOk fields)
  | _ => false

/-- The `for i, b in enumerate(blobs)` validation loop: index and reason of the
first invalid element, or `none` when all elements pass. -/
def firstInvalidBlob (blobs : List Json) (i : Nat) : Option RejectReason :=
  match blobs with
  | [] => none
  | b :: rest =>
    match b with
    | Json.obj fields =>
      if requiredKeys.all (blobFieldOk fields) then firstInvalidBlob rest (i + 1)
      else some (RejectReason.blobBadFields i)
    | _ => some (RejectReason.blobNotObject i)

/-- Embedding of `start_orchestrator_http` from `src/pipeline/function_app.py`.
`body?` is the result of `req.get_json()` (`none` models the `ValueError`
branch).  Returns the HTTP outcome together with the list of orchestrations
started, each as (orchestrator name, client input). -/
def start_orchestrator_http (body? : Option Json) :
    HttpOutcome × List (String × List Json) :=
  match body? with
  | none => (HttpOutcome.invalidInput RejectReason.invalidJson, [])
  | some body =>
    match body with
    | Json.obj fields =>
      match lookupField fields "blobs" with
      | some (Json.arr blobs) =>
        if blobs.isEmpty then
          (HttpOutcome.invalidInput RejectReason.blobsNotNonEmptyList, [])
        else
          match firstInvalidBlob blobs 0 with
          | some r => (HttpOutcome.invalidInput r, [])
          | none => (HttpOutcome.started blobs, [("orchestrator", blobs)])
      | _ => (HttpOutcome.invalidInput RejectReason.blobsNotNonEmptyList, [])
    | _ => (HttpOutcome.appError, [])

/-- The claim's notion of a well-formed blob record: an object carrying a
non-empty string under each of `name`, `url`, `container`. -/
def GoodBlobElem (b : Json) : Prop :=
  ∃ fields, b = Json.obj fields ∧
    ∀ k ∈ requiredKeys, ∃ s, lookupField fields k = some (Json.str s) ∧ s ≠ ""

/-- The claim's notion of a malformed batch request body (an object whose
`blobs` field is missing, not a list, an empty list, or has a bad element). -/
def MalformedBatch (fields : List (String × Json)) : Prop :=
  lookupField fields "blobs" = none ∨
  (∃ j, lookupField fields "blobs" = some j ∧ ∀ bs, j ≠ Json.arr bs) ∨
  lookupField fields "blobs" = some (Json.arr []) ∨
  (∃ bs, lookupField fields "blobs" = some (Json.arr bs) ∧
    ∃ b ∈ bs, ¬ GoodBlobElem b)

/-- An element accepted by the source's validation loop satisfies the claim's
well-formedness predicate. -/
theorem goodBlobElem_of_ok (b : Json) (h : blobElemOk b = true) : GoodBlobElem b := by
  cases b with
  | obj fields =>
    refine ⟨fields, rfl, ?_⟩
    intro k hk
    have hall := (List.all_eq_true.mp h) k hk
    unfold blobFieldOk at hall
    cases hl : lookupField fields k with
    | none => rw [hl] at hall; exact absurd hall (by simp)
    | some v =>
      cases v with
      | str s =>
        refine ⟨s, rfl, ?_⟩
        intro hs
        rw [hl, hs] at hall
        exact absurd hall (by decide)
      | null => rw [hl] at hall; exact absurd hall (by simp)
      | bool b => rw [hl] at hall; exact absurd hall (by simp)
      | num n => rw [hl] at hall; exact absurd hall (by simp)
      | arr xs => rw [hl] at hall; exact absurd hall (by simp)
      | obj f => rw [hl] at hall; exact absurd hall (by simp)
  | null => simp [blobElemOk] at h
  | bool b => simp [blobElemOk] at h
  | num n => simp [blobElemOk] at h
  | str s => simp [blobElemOk] at h
  | arr xs => simp [blobElemOk] at h

/-- The validation loop flags some element whenever a bad element is present. -/
theorem firstInvalidBlob_of_bad (bs : List Json) (b : Json) (hb : b ∈ bs)
    (hbad : blobElemOk b = false) :
    ∀ i, ∃ r, firstInvalidBlob bs i = some r := by
  induction bs with
  | nil => cases hb
  | cons hd tl ih =>
    intro i
    cases hhd : hd with
    | obj fields =>
      by_cases hall : requiredKeys.all (blobFieldOk fields) = true
      · rcases List.mem_cons.mp hb with hbh | hbt
        · exfalso
          rw [hbh, hhd] at hbad
          simp [blobElemOk, hall] at hbad
        · rcases ih hbt (i + 1) with ⟨r, hr⟩
          exact ⟨r, by simpa [firstInvalidBlob, hall] using hr⟩
      · exact ⟨RejectReason.blobBadFields i,
          by simp [firstInvalidBlob, Bool.eq_false_iff.mpr hall]⟩
    | null => exact ⟨RejectReason.blobNotObject i, by simp [firstInvalidBlob]⟩
    | bool c => exact ⟨RejectReason.blobNotObject i, by simp [firstInvalidBlob]⟩
    | num n => exact ⟨RejectReason.blobNotObject i, by simp [firstInvalidBlob]⟩
    | str s => exact ⟨RejectReason.blobNotObject i, by simp [firstInvalidBlob]⟩
    | arr xs => exact ⟨RejectReason.blobNotObject i, by simp [firstInvalidBlob]⟩

/-- C3: every malformed batch request body — `blobs` missing, not a list,
an empty list, or containing an element that is not an object with non-empty
string values for `name`, `url`, `container` — is rejected synchronously with
an invalid-input outcome, and no orchestration instance is started. -/
theorem http_rejects_malformed (fields : List (String × Json))
    (h : MalformedBatch fields) :
    (∃ r, (start_orchestrator_http (some (Json.obj fields))).1 =
        HttpOutcome.invalidInput r) ∧
    (start_orchestrator_http (some (Json.obj fields))).2 = [] := by
  simp only [start_orchestrator_http]
  rcases h with h | ⟨j, hj, hne⟩ | h | ⟨bs, hbs, b, hb, hbad⟩
  · rw [h]
    exact ⟨⟨RejectReason.blobsNotNonEmptyList, rfl⟩, rfl⟩
  · rw [hj]
    cases j with
    | arr xs => exact absurd rfl (hne xs)
    | null => exact ⟨⟨RejectReason.blobsNotNonEmptyList, rfl⟩, rfl⟩
    | bool c => exact ⟨⟨RejectReason.blobsNotNonEmptyList, rfl⟩, rfl⟩
    | num n => exact ⟨⟨RejectReason.blobsNotNonEmptyList, rfl⟩, rfl⟩
    | str s => exact ⟨⟨RejectReason.blobsNotNonEmptyList, rfl⟩, rfl⟩
    | obj f => exact ⟨⟨RejectReason.blobsNotNonEmptyList, rfl⟩, rfl⟩
  · rw [h]
    exact ⟨⟨RejectReason.blobsNotNonEmptyList, by simp⟩, by simp⟩
  · rw [hbs]
    have hok : blobElemOk b = false := by
      cases hcase : blobElemOk b with
      | false => rfl
      | true => exact absurd (goodBlobElem_of_ok b hcase) hbad
    rcases firstInvalidBlob_of_bad bs b hb hok 0 with ⟨r, hr⟩
    have hne : bs.isEmpty = false := by
      cases bs with
      | nil => cases hb
      | cons x xs => rfl
    simp only [hne, Bool.false_eq_true, if_false, hr]
    exact ⟨⟨r, rfl⟩, trivial⟩

/-- Witness for C3 at the concrete malformed body from the spec scenario,
`\x7b"blobs": []\x7d`. -/
theorem http_rejects_malformed_witness :
    MalformedBatch [("blobs", Json.arr [])] ∧
    ((∃ r, (start_orchestrator_http (some (Json.obj [("blobs", Json.arr [])]))).1 =
        HttpOutcome.invalidInput r) ∧
     (start_orchestrator_http (some (Json.obj [("blobs", Json.arr [])]))).2 = []) :=
  ⟨Or.inr (Or.inr (Or.inl rfl)),
   http_rejects_malformed [("blobs", Json.arr [])] (Or.inr (Or.inr (Or.inl rfl)))⟩

/-- One activity invocation issued by an orchestration: activity name and
input payload, as passed to `context.call_activity`. -/
structure ActivityCall where
  name : String
  input : Json

/-- The environment an orchestration runs against: each activity invocation
either returns a result or delivers a failure signal (the Activity
Dispatcher resumes the awaiting continuation with result or failure). -/
def ActivityOracle : Type := String → Json → Except String Json

/-- Python dict indexing `j[k]` (raises `KeyError` when the key is absent,
`TypeError` when the value is not a dict). -/
def jsonGetKey (j : Json) (k : String) : Except String Json :=
  match j with
  | Json.obj fields =>
    match lookupField fields k with
    | some v => Except.ok v
    | none => Except.error "KeyError"
  | _ => Except.error "TypeError"

/-- The `call_aoai_input` dictionary built by `process_blob`. -/
def callAoaiInput (text_result : Json) (instance_id : String) : Json :=
  Json.obj [("text_result", text_result), ("instance_id", Json.str instance_id)]

/-- The input dictionary of the `writeToBlob` activity call in `process_blob`. -/
def writeToBlobInput (json_str : Json) (blob_name : Json) : Json :=
  Json.obj [("json_str", json_str), ("blob_name", blob_name)]

/-- The dictionary returned by `process_blob` on success. -/
def processBlobResult (blob_metadata text_result task_result : Json) : Json :=
  Json.obj [("blob", blob_metadata), ("text_result", text_result),
    ("task_result", task_result)]

/-- Embedding of the `ProcessBlob` sub-orchestrator (`process_blob` in
`src/pipeline/function_app.py`): a straight-line sequence of three awaited
activity calls, where an activity failure signal propagates out as the
orchestration's failure.  Returns the orchestration outcome together with the
ordered list of activity invocations issued. -/
def process_blob (act : ActivityOracle) (blob_metadata : Json)
    (instance_id : String) : Except String Json × List ActivityCall :=
  match act "runDocIntel" blob_metadata with
  | Except.error e => (Except.error e, [⟨"runDocIntel", blob_metadata⟩])
  | Except.ok text_result =>
    match act "callAoai" (callAoaiInput text_result instance_id) with
    | Except.error e =>
      (Except.error e, [⟨"runDocIntel", blob_metadata⟩,
        ⟨"callAoai", callAoaiInput text_result instance_id⟩])
    | Except.ok json_str =>
      match jsonGetKey blob_metadata "name" with
      | Except.error e =>
        (Except.error e, [⟨"runDocIntel", blob_metadata⟩,
          ⟨"callAoai", callAoaiInput text_result instance_id⟩])
      | Except.ok blob_name =>
        match act "writeToBlob" (writeToBlobInput json_str blob_name) with
        | Except.error e =>
          (Except.error e, [⟨"runDocIntel", blob_metadata⟩,
            ⟨"callAoai", callAoaiInput text_result instance_id⟩,
            ⟨"writeToBlob", writeToBlobInput json_str blob_name⟩])
        | Except.ok task_result =>
          (Except.ok (processBlobResult blob_metadata text_result task_result),
           [⟨"runDocIntel", blob_metadata⟩,
            ⟨"callAoai", callAoaiInput text_result instance_id⟩,
            ⟨"writeToBlob", writeToBlobInput json_str blob_name⟩])

/-- C4: when all three activities succeed, the child orchestration issues
exactly the three activities extract (`runDocIntel`), transform (`callAoai`),
persist (`writeToBlob`) in that order, the transform consumes the extract's
output plus the child instance id, the persist consumes the transform's output
plus the item's target name, and the result carries the item metadata, the
extracted content and the persist outcome. -/
theorem process_blob_sequence (act : ActivityOracle) (meta : Json)
    (iid : String) (t j w nm : Json)
    (h1 : act "runDocIntel" meta = Except.ok t)
    (h2 : act "callAoai" (callAoaiInput t iid) = Except.ok j)
    (hn : jsonGetKey meta "name" = Except.ok nm)
    (h3 : act "writeToBlob" (writeToBlobInput j nm) = Except.ok w) :
    process_blob act meta iid =
      (Except.ok (processBlobResult meta t w),
       [⟨"runDocIntel", meta⟩, ⟨"callAoai", callAoaiInput t iid⟩,
        ⟨"writeToBlob", writeToBlobInput j nm⟩]) := by
  simp only [process_blob, h1, h2, hn, h3]

/-- A concrete item-metadata dictionary used by the witnesses. -/
def demoMeta : Json :=
  Json.obj [("name", Json.str "bronze/a.pdf"), ("url", Json.str "u1"),
    ("container", Json.str "bronze")]

/-- A concrete activity environment in which all three activities succeed. -/
def demoOracle : ActivityOracle := fun name _input =>
  if name = "runDocIntel" then Except.ok (Json.str "text")
  else if name = "callAoai" then Except.ok (Json.str "json")
  else Except.ok (Json.str "written")

/-- Witness for C4 at a concrete all-success run. -/
theorem process_blob_sequence_witness :
    process_blob demoOracle demoMeta "id1" =
      (Except.ok (processBlobResult demoMeta (Json.str "text") (Json.str "written")),
       [⟨"runDocIntel", demoMeta⟩,
        ⟨"callAoai", callAoaiInput (Json.str "text") "id1"⟩,
        ⟨"writeToBlob", writeToBlobInput (Json.str "json") (Json.str "bronze/a.pdf")⟩]) :=
  process_blob_sequence demoOracle demoMeta "id1" (Json.str "text")
    (Json.str "json") (Json.str "written") (Json.str "bronze/a.pdf")
    rfl rfl rfl rfl

/-- C10: the child orchestration performs no retry and no local failure
handling: the issued activity names always form an initial segment of the
extract/transform/persist sequence (so no activity is ever re-issued), and a
failure signal from any of the three steps propagates out as the child's
failure with the trace cut off at the single failed attempt. -/
theorem process_blob_no_retry (act : ActivityOracle) (meta : Json)
    (iid : String) :
    (((process_blob act meta iid).2.map ActivityCall.name) <+:
        ["runDocIntel", "callAoai", "writeToBlob"]) ∧
    (∀ e, act "runDocIntel" meta = Except.error e →
        process_blob act meta iid = (Except.error e, [⟨"runDocIntel", meta⟩])) ∧
    (∀ t e, act "runDocIntel" meta = Except.ok t →
        act "callAoai" (callAoaiInput t iid) = Except.error e →
        process_blob act meta iid =
          (Except.error e, [⟨"runDocIntel", meta⟩,
            ⟨"callAoai", callAoaiInput t iid⟩])) ∧
    (∀ t j nm e, act "runDocIntel" meta = Except.ok t →
        act "callAoai" (callAoaiInput t iid) = Except.ok j →
        jsonGetKey meta "name" = Except.ok nm →
        act "writeToBlob" (writeToBlobInput j nm) = Except.error e →
        process_blob act meta iid =
          (Except.error e, [⟨"runDocIntel", meta⟩,
            ⟨"callAoai", callAoaiInput t iid⟩,
            ⟨"writeToBlob", writeToBlobInput j nm⟩])) := by
  refine ⟨?_, ?_, ?_, ?_⟩
  · cases h1 : act "runDocIntel" meta with
    | error e =>
      simp only [process_blob, h1, List.map]
      exact ⟨["callAoai", "writeToBlob"], rfl⟩
    | ok t =>
      cases h2 : act "callAoai" (callAoaiInput t iid) with
      | error e =>
        simp only [process_blob, h1, h2, List.map]
        exact ⟨["writeToBlob"], rfl⟩
      | ok j =>
        cases hn : jsonGetKey meta "name" with
        | error e =>
          simp only [process_blob, h1, h2, hn, List.map]
          exact ⟨["writeToBlob"], rfl⟩
        | ok nm =>
          cases h3 : act "writeToBlob" (writeToBlobInput j nm) with
          | error e =>
            simp only [process_blob, h1, h2, hn, h3, List.map]
            exact ⟨[], rfl⟩
          | ok w =>
            simp only [process_blob, h1, h2, hn, h3, List.map]
            exact ⟨[], rfl⟩
  · intro e h1
    simp only [process_blob, h1]
  · intro t e h1 h2
    simp only [process_blob, h1, h2]
  · intro t j nm e h1 h2 hn h3
    simp only [process_blob, h1, h2, hn, h3]

/-- A concrete activity environment in which the transform step fails. -/
def failingOracle : ActivityOracle := fun name _input =>
  if name = "callAoai" then Except.error "boom" else Except.ok Json.null

/-- Witness for C10: a concrete run in which the transform fails, the failure
propagates out, and the trace shows a single attempt of each issued step. -/
theorem process_blob_no_retry_witness :
    process_blob failingOracle demoMeta "id1" =
      (Except.error "boom",
       [⟨"runDocIntel", demoMeta⟩, ⟨"callAoai", callAoaiInput Json.null "id1"⟩]) :=
  (process_blob_no_retry failingOracle demoMeta "id1").2.2.1 Json.null "boom" rfl rfl

/-- Embedding of the `orchestrator` (`run` in `src/pipeline/function_app.py`):
for each element of the input list, in order, appends one `ProcessBlob`
sub-orchestration task to `sub_tasks`. -/
def run (input_data : List Json) : List (String × Json) :=
  input_data.map (fun blob_metadata => ("ProcessBlob", blob_metadata))

/-- Terminal outcome of a child workflow instance: its result payload or its
failure description. -/
inductive Outcome where
  | ok (v : Json) : Outcome
  | fail (e : String) : Outcome

/-- Whether an outcome is a success. -/
def Outcome.isOk : Outcome → Bool
  | Outcome.ok _ => true
  | Outcome.fail _ => false

/-- Modelled from the spec: `fanOut(parentInstanceId, items)` of the
Fan-out/Fan-in Coordinator (the durable engine under `context.task_all` is
not in the repository source).  Creates one child WorkflowInstance per item,
preserving input order; child instance ids are assigned serially, so child
`i` carries item `i`. -/
def fanOut (tasks : List (String × Json)) : List (Nat × (String × Json)) :=
  tasks.enum

/-- Looks up the recorded terminal outcome of child `cid` among the completion
arrivals (first match). -/
def lookupArrival (arrivals : List (Nat × Outcome)) (cid : Nat) : Option Outcome :=
  match arrivals with
  | [] => none
  | (c, o) :: rest => if c = cid then some o else lookupArrival rest cid

/-- Modelled from the spec: `joinAll(childInstanceIds)` of the Fan-out/Fan-in
Coordinator — aggregates the children's terminal outcomes in the original
fan-out order, independent of the order in which completions arrived. -/
def joinAll (childIds : List Nat) (arrivals : List (Nat × Outcome)) :
    List (Option Outcome) :=
  childIds.map (lookupArrival arrivals)

/-- Modelled from the spec: the parent's aggregate status over the per-child
outcomes, distinguishing total success, mixed success/failure and total
failure (the spec's "3 of 5 succeeded" versus "all failed" distinction). -/
inductive ParentStatus where
  | allSucceeded (outs : List Outcome) : ParentStatus
  | someFailed (outs : List Outcome) : ParentStatus
  | allFailed (outs : List Outcome) : ParentStatus

/-- Modelled from the spec: derives the parent's status from the joined
per-child outcomes. -/
def parentStatus (outs : List Outcome) : ParentStatus :=
  if outs.all Outcome.isOk then ParentStatus.allSucceeded outs
  else if outs.any Outcome.isOk then ParentStatus.someFailed outs
  else ParentStatus.allFailed outs

/-- In an arrival list whose child ids are duplicate-free, lookup finds the
recorded pair. -/
theorem lookupArrival_eq_of_mem (arrivals : List (Nat × Outcome)) (c : Nat)
    (o : Outcome) (hnd : (arrivals.map Prod.fst).Nodup)
    (hmem : (c, o) ∈ arrivals) : lookupArrival arrivals c = some o := by
  induction arrivals with
  | nil => cases hmem
  | cons hd tl ih =>
    obtain ⟨c', o'⟩ := hd
    rcases List.mem_cons.mp hmem with heq | htl
    · obtain ⟨h1, h2⟩ := Prod.mk.injEq .. ▸ heq
      simp [lookupArrival, h1.symm, h2.symm]
    · have hc : c' ≠ c := by
        intro h
        subst h
        exact (List.nodup_cons.mp hnd).1
          (List.mem_map.mpr ⟨(c', o), htl, rfl⟩)
      simp only [lookupArrival, if_neg hc]
      exact ih (List.nodup_cons.mp hnd).2 htl

/-- Arrivals that are a permutation of the children's outcome graph resolve
every child id to its recorded outcome. -/
theorem lookupArrival_perm_graph (arrivals : List (Nat × Outcome))
    (n : Nat) (f : Nat → Outcome)
    (harr : arrivals.Perm ((List.range n).map (fun i => (i, f i)))) :
    ∀ i < n, lookupArrival arrivals i = some (f i) := by
  intro i hi
  have hnd : (arrivals.map Prod.fst).Nodup := by
    have hperm := harr.map Prod.fst
    refine hperm.nodup_iff.mpr ?_
    have : ((List.range n).map (fun i => (i, f i))).map Prod.fst = List.range n := by
      rw [List.map_map]
      exact List.map_id _
    rw [this]
    exact List.nodup_range n
  have hmem : (i, f i) ∈ arrivals :=
    harr.symm.subset (List.mem_map.mpr ⟨i, List.mem_range.mpr hi, rfl⟩)
  exact lookupArrival_eq_of_mem arrivals i (f i) hnd hmem

/-- The join over the fan-out's children resolves, for any completion
arrival order, to the children's outcomes in original fan-out order. -/
theorem joinAll_fanout_ordered (input_data : List Json) (f : Nat → Outcome)
    (arrivals : List (Nat × Outcome))
    (harr : arrivals.Perm
      ((List.range (run input_data).length).map (fun i => (i, f i)))) :
    joinAll ((fanOut (run input_data)).map Prod.fst) arrivals =
      (List.range input_data.length).map (fun i => some (f i)) := by
  have hlen : (run input_data).length = input_data.length := by simp [run]
  rw [joinAll, fanOut, List.enum_map_fst, hlen]
  refine List.map_congr_left ?_
  intro i hi
  exact lookupArrival_perm_graph arrivals input_data.length f (hlen ▸ harr) i
    (List.mem_range.mp hi)

/-- C1: the orchestrator fans out exactly one child per input item in input
order, and for every completion order (any permutation of the children's
terminal outcomes) the join returns exactly N outcomes in the original
fan-out order, child `i` carrying item `i`'s outcome. -/
theorem orchestrator_fanout_join (input_data : List Json) (f : Nat → Outcome)
    (arrivals : List (Nat × Outcome))
    (harr : arrivals.Perm
      ((List.range (run input_data).length).map (fun i => (i, f i)))) :
    (fanOut (run input_data)).length = input_data.length ∧
    (fanOut (run input_data)).map Prod.snd = run input_data ∧
    joinAll ((fanOut (run input_data)).map Prod.fst) arrivals =
      (List.range input_data.length).map (fun i => some (f i)) := by
  refine ⟨?_, ?_, joinAll_fanout_ordered input_data f arrivals harr⟩
  · simp [fanOut, run]
  · exact List.enum_map_snd _

/-- Witness for C1: two items whose children complete in reversed order still
join to a two-element result in input order. -/
theorem orchestrator_fanout_join_witness :
    (fanOut (run [Json.str "a", Json.str "b"])).length = 2 ∧
    (fanOut (run [Json.str "a", Json.str "b"])).map Prod.snd =
      run [Json.str "a", Json.str "b"] ∧
    joinAll ((fanOut (run [Json.str "a", Json.str "b"])).map Prod.fst)
      [(1, Outcome.ok (Json.str "r1")), (0, Outcome.ok (Json.str "r0"))] =
      [some (Outcome.ok (Json.str "r0")), some (Outcome.ok (Json.str "r1"))] := by
  have hf := orchestrator_fanout_join [Json.str "a", Json.str "b"]
    (fun i => if i = 0 then Outcome.ok (Json.str "r0") else Outcome.ok (Json.str "r1"))
    [(1, Outcome.ok (Json.str "r1")), (0, Outcome.ok (Json.str "r0"))]
    (List.Perm.swap _ _ _)
  exact ⟨hf.1, hf.2.1, hf.2.2⟩

/-- C2: when exactly one of N children fails and the others succeed, the join
still returns all N per-item outcomes in fan-out order (no early abort), and
the parent status is the mixed-failure status, distinct from the status a
fully failed batch receives. -/
theorem join_one_failure (input_data : List Json) (f : Nat → Outcome)
    (arrivals : List (Nat × Outcome)) (k : Nat) (e : String)
    (hk : k < input_data.length)
    (hfail : f k = Outcome.fail e)
    (hok : ∀ i < input_data.length, i ≠ k → ∃ v, f i = Outcome.ok v)
    (hN : 2 ≤ input_data.length)
    (harr : arrivals.Perm
      ((List.range (run input_data).length).map (fun i => (i, f i)))) :
    joinAll ((fanOut (run input_data)).map Prod.fst) arrivals =
      (List.range input_data.length).map (fun i => some (f i)) ∧
    parentStatus ((List.range input_data.length).map f) =
      ParentStatus.someFailed ((List.range input_data.length).map f) ∧
    (∀ outs : List Outcome, outs ≠ [] → outs.all (fun o => !o.isOk) →
      parentStatus outs = ParentStatus.allFailed outs) ∧
    (∀ xs ys : List Outcome, ParentStatus.someFailed xs ≠ ParentStatus.allFailed ys) := by
  refine ⟨joinAll_fanout_ordered input_data f arrivals harr, ?_, ?_, ?_⟩
  · have hnotall : ((List.range input_data.length).map f).all Outcome.isOk = false := by
      refine List.all_eq_false.mpr ⟨f k, List.mem_map.mpr ⟨k, List.mem_range.mpr hk, rfl⟩, ?_⟩
      rw [hfail]
      simp [Outcome.isOk]
    have hany : ((List.range input_data.length).map f).any Outcome.isOk = true := by
      set i : Nat := if k = 0 then 1 else 0 with hidef
      have hi : i < input_data.length := by
        by_cases h0 : k = 0 <;> simp [hidef, h0] <;> omega
      have hik : i ≠ k := by
        by_cases h0 : k = 0 <;> simp [hidef, h0]
        omega
      obtain ⟨v, hv⟩ := hok i hi hik
      refine List.any_eq_true.mpr ⟨f i, List.mem_map.mpr ⟨i, List.mem_range.mpr hi, rfl⟩, ?_⟩
      rw [hv]
      simp [Outcome.isOk]
    simp [parentStatus, hnotall, hany]
  · intro outs hne hallfail
    have h1 : outs.all Outcome.isOk = false := by
      cases outs with
      | nil => exact absurd rfl hne
      | cons o tl =>
        have := (List.all_eq_true.mp hallfail) o (List.mem_cons_self o tl)
        refine List.all_eq_false.mpr ⟨o, List.mem_cons_self o tl, ?_⟩
        simpa using this
    have h2 : outs.any Outcome.isOk = false := by
      refine List.any_eq_false.mpr ?_
      intro o ho
      have := (List.all_eq_true.mp hallfail) o ho
      simpa using this
    simp [parentStatus, h1, h2]
  · intro xs ys h
    cases h

/-- Witness for C2: two children, the second failing, completions arriving in
reversed order; the join returns both outcomes and the parent status is the
mixed one, while a fully failed pair receives the distinct all-failed status. -/
theorem join_one_failure_witness :
    joinAll ((fanOut (run [Json.str "a", Json.str "b"])).map Prod.fst)
      [(1, Outcome.fail "e1"), (0, Outcome.ok (Json.str "r0"))] =
      [some (Outcome.ok (Json.str "r0")), some (Outcome.fail "e1")] ∧
    parentStatus [Outcome.ok (Json.str "r0"), Outcome.fail "e1"] =
      ParentStatus.someFailed [Outcome.ok (Json.str "r0"), Outcome.fail "e1"] ∧
    parentStatus [Outcome.fail "e0", Outcome.fail "e1"] =
      ParentStatus.allFailed [Outcome.fail "e0", Outcome.fail "e1"] := by
  have hf := join_one_failure [Json.str "a", Json.str "b"]
    (fun i => if i = 0 then Outcome.ok (Json.str "r0") else Outcome.fail "e1")
    [(1, Outcome.fail "e1"), (0, Outcome.ok (Json.str "r0"))] 1 "e1"
    (by decide) rfl
    (by
      intro i hi hne
      have hi' : i < 2 := by simpa using hi
      have : i = 0 := by omega
      subst this
      exact ⟨Json.str "r0", rfl⟩)
    (by decide)
    (List.Perm.swap _ _ _)
  refine ⟨hf.1, hf.2.1, ?_⟩
  exact hf.2.2.1 [Outcome.fail "e0", Outcome.fail "e1"] (by simp) (by rfl)

/-- Python's `sep in s` membership test for strings, over character lists. -/
def containsSub (sep : List Char) : List Char → Bool
  | [] => sep.isEmpty
  | c :: rest => sep.isPrefixOf (c :: rest) || containsSub sep rest

/-- Unfolding equation of `containsSub` at a cons cell. -/
theorem containsSub_cons (sep : List Char) (c : Char) (rest : List Char) :
    containsSub sep (c :: rest) =
      (sep.isPrefixOf (c :: rest) || containsSub sep rest) := rfl

/-- Python's `s.split(sep)` for a non-empty separator, over character lists:
scans left to right, splitting at each non-overlapping occurrence of `sep`. -/
def pySplit (sep : List Char) (s : List Char) : List (List Char) :=
  match s with
  | [] => [[]]
  | c :: rest =>
    if h : 0 < sep.length ∧ sep.isPrefixOf (c :: rest) = true then
      [] :: pySplit sep ((c :: rest).drop sep.length)
    else
      match pySplit sep rest with
      | [] => [[c]]
      | hd :: tl => (c :: hd) :: tl
termination_by s.length
decreasing_by
  · simp only [List.length_drop, List.length_cons]
    omega
  · simp only [List.length_cons]
    omega

/-- Unfolding equation of `pySplit` on the empty string. -/
theorem pySplit_nil (sep : List Char) : pySplit sep [] = [[]] := by
  rw [pySplit]

/-- Unfolding equation of `pySplit` when the separator matches at the head. -/
theorem pySplit_cons_pos (sep : List Char) (c : Char) (rest : List Char)
    (h : 0 < sep.length ∧ sep.isPrefixOf (c :: rest) = true) :
    pySplit sep (c :: rest) = [] :: pySplit sep ((c :: rest).drop sep.length) := by
  rw [pySplit, dif_pos h]

/-- Unfolding equation of `pySplit` when the separator does not match at the
head. -/
theorem pySplit_cons_neg (sep : List Char) (c : Char) (rest : List Char)
    (h : ¬(0 < sep.length ∧ sep.isPrefixOf (c :: rest) = true)) :
    pySplit sep (c :: rest) =
      match pySplit sep rest with
      | [] => [[c]]
      | hd :: tl => (c :: hd) :: tl := by
  rw [pySplit, dif_neg h]

/-- A single-character separator does not occur in a string avoiding that
character. -/
theorem containsSub_single_eq_false (x : Char) (s : List Char) (hx : x ∉ s) :
    containsSub [x] s = false := by
  induction s with
  | nil => rfl
  | cons c rest ih =>
    rw [containsSub_cons]
    have hxc : x ≠ c := fun h => hx (h ▸ List.mem_cons_self c rest)
    have h1 : [x].isPrefixOf (c :: rest) = false := by
      simp [List.isPrefixOf, hxc]
    rw [h1, ih (fun h => hx (List.mem_cons_of_mem c h))]
    rfl

/-- Splitting at the first separator occurrence: when `sep` does not occur in
`A` (nor straddling `A` and the separator itself), splitting `A ++ sep ++ B`
peels off `A` and continues in `B`. -/
theorem pySplit_append (sep A B : List Char) (hsep : 0 < sep.length)
    (hA : containsSub sep (A ++ sep.dropLast) = false) :
    pySplit sep (A ++ sep ++ B) = A :: pySplit sep B := by
  induction A with
  | nil =>
    cases sep with
    | nil => simp at hsep
    | cons sc stl =>
      have e : ([] ++ (sc :: stl)) ++ B = sc :: (stl ++ B) := by simp
      rw [e, pySplit_cons_pos]
      · have e2 : (sc :: (stl ++ B)) = (sc :: stl) ++ B := by simp
        rw [e2, List.drop_left]
      · refine ⟨by simp, ?_⟩
        refine List.isPrefixOf_iff_prefix.mpr ?_
        exact ⟨B, by simp⟩
  | cons a A' ih =>
    rw [List.cons_append, containsSub_cons] at hA
    rcases Bool.or_eq_false_iff.mp hA with ⟨hnp, hA'⟩
    rw [List.cons_append, List.cons_append]
    have hnpre : ¬ sep.isPrefixOf (a :: ((A' ++ sep) ++ B)) = true := by
      intro hpre
      have h1 : sep <+: (a :: ((A' ++ sep) ++ B)) :=
        List.isPrefixOf_iff_prefix.mp hpre
      obtain ⟨t, ht⟩ := List.dropLast_prefix sep
      have h2 : (a :: (A' ++ sep.dropLast)) <+: (a :: ((A' ++ sep) ++ B)) := by
        refine ⟨t ++ B, ?_⟩
        simp only [List.cons_append, List.append_assoc]
        rw [← List.append_assoc sep.dropLast t B, ht]
      have hlen : sep.length ≤ (a :: (A' ++ sep.dropLast)).length := by
        simp [List.length_dropLast]
        omega
      have h4 : sep.isPrefixOf (a :: (A' ++ sep.dropLast)) = true :=
        List.isPrefixOf_iff_prefix.mpr
          (List.prefix_of_prefix_length_le h1 h2 hlen)
      rw [hnp] at h4
      cases h4
    rw [pySplit_cons_neg _ _ _ (fun hcon => hnpre hcon.2), ih hA']

/-- Splitting a string the separator does not occur in yields that string as
the single part. -/
theorem pySplit_noSep (sep B : List Char) (hsep : 0 < sep.length)
    (hB : containsSub sep B = false) : pySplit sep B = [B] := by
  induction B with
  | nil => exact pySplit_nil sep
  | cons c rest ih =>
    rw [containsSub_cons] at hB
    rcases Bool.or_eq_false_iff.mp hB with ⟨hnp, hrest⟩
    rw [pySplit_cons_neg _ _ _ (fun hcon => by rw [hcon.2] at hnp; cases hnp),
      ih hrest]

/-- The separator `'/blobs/'` from the Event Grid starter. -/
def sepBlobs : List Char := ['/', 'b', 'l', 'o', 'b', 's', '/']

/-- The separator `'/containers/'` from the Event Grid starter. -/
def sepContainers : List Char :=
  ['/', 'c', 'o', 'n', 't', 'a', 'i', 'n', 'e', 'r', 's', '/']

/-- The default container name `'bronze'`. -/
def bronzeChars : List Char := ['b', 'r', 'o', 'n', 'z', 'e']

/-- The item metadata built by the starters (`BlobMetadata` in the source). -/
structure BlobMetadata where
  name : List Char
  url : Json
  container : List Char

/-- The `blob_name` computation of `start_orchestrator_blob`:
`subject_parts[1] if len(subject_parts) > 1 else blob_subject`. -/
def blobNameOf (blob_subject : List Char) : List Char :=
  if 1 < (pySplit sepBlobs blob_subject).length then
    (pySplit sepBlobs blob_subject).getD 1 []
  else blob_subject

/-- The `container_name` computation of `start_orchestrator_blob`:
`container_parts[1].split('/')[0]` when the subject splits, else `'bronze'`. -/
def containerNameOf (blob_subject : List Char) : List Char :=
  if 1 < (pySplit sepContainers blob_subject).length then
    (pySplit ['/'] ((pySplit sepContainers blob_subject).getD 1 [])).getD 0 []
  else bronzeChars

/-- The metadata record built by `start_orchestrator_blob`:
name is `f"(container_name)/(blob_name)"`. -/
def blobMetadataOf (blob_subject : List Char) (blob_url : Json) : BlobMetadata :=
  ⟨containerNameOf blob_subject ++ '/' :: blobNameOf blob_subject, blob_url,
    containerNameOf blob_subject⟩

/-- Embedding of the Event Grid starter `start_orchestrator_blob` from
`src/pipeline/function_app.py`: builds the item metadata from the event
subject and starts the orchestrator with the single-element input list
`[blob_metadata.to_dict()]`. -/
def start_orchestrator_blob (blob_subject : List Char) (blob_url : Json) :
    BlobMetadata × List (String × List BlobMetadata) :=
  (blobMetadataOf blob_subject blob_url,
   [("orchestrator", [blobMetadataOf blob_subject blob_url])])

/-- C9: for a subject of the clean form
`pre ++ '/containers/' ++ c ++ '/blobs/' ++ n`, the starter builds metadata
with name `c ++ '/' ++ n` and container `c`; a subject with no
`'/containers/'` gets container `'bronze'`; a subject with no `'/blobs/'`
uses the whole subject as the blob name; and in every case exactly one
orchestration is started, with a single-element input list. -/
theorem start_orchestrator_blob_spec :
    (∀ (pre c n : List Char) (url : Json),
      '/' ∉ c →
      containsSub sepBlobs ((pre ++ sepContainers ++ c) ++ sepBlobs.dropLast) = false →
      containsSub sepBlobs n = false →
      containsSub sepContainers (pre ++ sepContainers.dropLast) = false →
      containsSub sepContainers (c ++ sepBlobs ++ n) = false →
      start_orchestrator_blob (pre ++ sepContainers ++ c ++ sepBlobs ++ n) url =
        (⟨c ++ '/' :: n, url, c⟩,
         [("orchestrator", [⟨c ++ '/' :: n, url, c⟩])])) ∧
    (∀ s : List Char, containsSub sepContainers s = false →
      containerNameOf s = bronzeChars) ∧
    (∀ s : List Char, containsSub sepBlobs s = false → blobNameOf s = s) ∧
    (∀ (s : List Char) (url : Json),
      start_orchestrator_blob s url =
        (blobMetadataOf s url, [("orchestrator", [blobMetadataOf s url])])) := by
  refine ⟨?_, ?_, ?_, ?_⟩
  · intro pre c n url hc h1 h2 h3 h4
    have hCont : pySplit sepContainers (pre ++ sepContainers ++ c ++ sepBlobs ++ n) =
        [pre, (c ++ sepBlobs) ++ n] := by
      have e1 : pre ++ sepContainers ++ c ++ sepBlobs ++ n =
          (pre ++ sepContainers) ++ ((c ++ sepBlobs) ++ n) := by
        simp [List.append_assoc]
      rw [e1, pySplit_append sepContainers pre ((c ++ sepBlobs) ++ n) (by decide) h3,
        pySplit_noSep sepContainers ((c ++ sepBlobs) ++ n) (by decide) h4]
    have hBlob : pySplit sepBlobs (pre ++ sepContainers ++ c ++ sepBlobs ++ n) =
        [pre ++ sepContainers ++ c, n] := by
      rw [pySplit_append sepBlobs (pre ++ sepContainers ++ c) n (by decide) h1,
        pySplit_noSep sepBlobs n (by decide) h2]
    have hSlash : pySplit ['/'] ((c ++ sepBlobs) ++ n) =
        c :: pySplit ['/'] (['b', 'l', 'o', 'b', 's', '/'] ++ n) := by
      have e3 : (c ++ sepBlobs) ++ n =
          (c ++ ['/']) ++ (['b', 'l', 'o', 'b', 's', '/'] ++ n) := by
        simp [sepBlobs, List.append_assoc]
      rw [e3, pySplit_append ['/'] c (['b', 'l', 'o', 'b', 's', '/'] ++ n) (by decide)
        (by simpa using containsSub_single_eq_false '/' c hc)]
    have hname : blobNameOf (pre ++ sepContainers ++ c ++ sepBlobs ++ n) = n := by
      rw [blobNameOf, hBlob]
      simp
    have hcont2 : containerNameOf (pre ++ sepContainers ++ c ++ sepBlobs ++ n) = c := by
      rw [containerNameOf, hCont]
      rw [if_pos (by simp : (1 : Nat) < [pre, (c ++ sepBlobs) ++ n].length)]
      show (pySplit ['/'] ((c ++ sepBlobs) ++ n)).getD 0 [] = c
      rw [hSlash]
      rfl
    simp only [start_orchestrator_blob, blobMetadataOf, hname, hcont2]
  · intro s hs
    rw [containerNameOf, pySplit_noSep sepContainers s (by decide) hs]
    simp
  · intro s hs
    rw [blobNameOf, pySplit_noSep sepBlobs s (by decide) hs]
    simp
  · intro s url
    rfl

/-- Witness for C9 at the spec's example subject
`/blobServices/default/containers/bronze/blobs/file.pdf`. -/
theorem start_orchestrator_blob_spec_witness :
    ('/' ∉ "bronze".toList) ∧
    (containsSub sepBlobs (("/blobServices/default".toList ++ sepContainers ++
        "bronze".toList) ++ sepBlobs.dropLast) = false) ∧
    (containsSub sepBlobs "file.pdf".toList = false) ∧
    (containsSub sepContainers ("/blobServices/default".toList ++
        sepContainers.dropLast) = false) ∧
    (containsSub sepContainers ("bronze".toList ++ sepBlobs ++
        "file.pdf".toList) = false) ∧
    start_orchestrator_blob ("/blobServices/default".toList ++ sepContainers ++
        "bronze".toList ++ sepBlobs ++ "file.pdf".toList) Json.null =
      (⟨"bronze".toList ++ '/' :: "file.pdf".toList, Json.null, "bronze".toList⟩,
       [("orchestrator",
         [⟨"bronze".toList ++ '/' :: "file.pdf".toList, Json.null, "bronze".toList⟩])]) :=
  ⟨by decide, by decide, by decide, by decide, by decide,
   start_orchestrator_blob_spec.1 "/blobServices/default".toList "bronze".toList
     "file.pdf".toList Json.null (by decide) (by decide) (by decide) (by decide)
     (by decide)⟩

/-- Modelled from the spec: the HistoryEvent kinds of the durable engine's
Event Log (spec section 3).  A completion or failure event carries the
sequence number of the scheduling event it consumes; `orchCompleted` carries
the instance's terminal outcome (result or propagated failure). -/
inductive EventKind where
  | actSched (name : String) (input : Json) : EventKind
  | actCompleted (ref : Nat) (result : Json) : EventKind
  | actFailed (ref : Nat) (err : String) : EventKind
  | subSched (name : String) (input : Json) : EventKind
  | subCompleted (ref : Nat) (result : Json) : EventKind
  | subFailed (ref : Nat) (err : String) : EventKind
  | orchCompleted (outcome : Except String Json) : EventKind

/-- The sequence number a completion/failure event consumes, if any. -/
def EventKind.refOf : EventKind → Option Nat
  | EventKind.actCompleted r _ => some r
  | EventKind.actFailed r _ => some r
  | EventKind.subCompleted r _ => some r
  | EventKind.subFailed r _ => some r
  | _ => none

/-- Whether an event is a scheduling event. -/
def EventKind.isScheduling : EventKind → Bool
  | EventKind.actSched _ _ => true
  | EventKind.subSched _ _ => true
  | _ => false

/-- Whether an event terminates the instance. -/
def EventKind.isTerminalEvent : EventKind → Bool
  | EventKind.orchCompleted _ => true
  | _ => false

/-- Modelled from the spec: `readHistory(instanceId)` of the Event Log —
the full ordered history, each event paired with its assigned sequence
number (events are appended serially, so the sequence number is the
position in the log). -/
def readHistory (log : List EventKind) : List (Nat × EventKind) :=
  log.enum

/-- Whether sequence number `r` has already been consumed by some
completion/failure event in the log. -/
def consumedB (log : List EventKind) (r : Nat) : Bool :=
  log.any (fun e => e.refOf == some r)

/-- Modelled from the spec: the guard the engine enforces on `append` — no
append after the instance is terminal, and a completion/failure event must
consume an existing scheduling event's sequence number that is not yet
consumed. -/
def okAppend (log : List EventKind) (e : EventKind) : Bool :=
  log.all (fun t => !t.isTerminalEvent) &&
    match e.refOf with
    | none => true
    | some r =>
      (match log.get? r with
       | some t => t.isScheduling
       | none => false) && !consumedB log r

/-- Modelled from the spec: the logs reachable through the engine's append
discipline (append-only, serialized per instance). -/
inductive ValidLog : List EventKind → Prop where
  | nil : ValidLog []
  | snoc (log : List EventKind) (e : EventKind) (hv : ValidLog log)
      (ha : okAppend log e = true) : ValidLog (log ++ [e])

/-- A consumed sequence number is witnessed by an event at some position. -/
theorem consumedB_iff (log : List EventKind) (r : Nat) :
    consumedB log r = true ↔
      ∃ (i : Nat) (h : i < log.length), (log[i]).refOf = some r := by
  constructor
  · intro h
    obtain ⟨e, he, hr⟩ := List.any_eq_true.mp h
    obtain ⟨i, hi, hei⟩ := List.mem_iff_getElem.mp he
    exact ⟨i, hi, by rw [hei]; exact beq_iff_eq.mp hr⟩
  · rintro ⟨i, hi, hr⟩
    exact List.any_eq_true.mpr ⟨log[i], List.mem_iff_getElem.mpr ⟨i, hi, rfl⟩,
      beq_iff_eq.mpr hr⟩

/-- Correlation invariant of valid logs: a completion/failure event at
position `i` consuming sequence number `r` points to an earlier scheduling
event (the event appended with sequence number `r`), and no other event
consumes `r`. -/
theorem validLog_refs (log : List EventKind) (hv : ValidLog log) :
    ∀ (i : Nat) (hi : i < log.length) (r : Nat), (log[i]).refOf = some r →
      r < i ∧
      (∃ hr : r < log.length, (log[r]).isScheduling = true) ∧
      (∀ (j : Nat) (hj : j < log.length), j ≠ i → (log[j]).refOf ≠ some r) := by
  induction hv with
  | nil =>
    intro i hi
    simp at hi
  | snoc log e hv ha ih =>
    have hlen : (log ++ [e]).length = log.length + 1 := by simp
    -- decompose the append guard
    have ha' := ha
    rw [okAppend, Bool.and_eq_true] at ha'
    obtain ⟨hterm, href⟩ := ha'
    intro i hi r hr
    by_cases hcase : i < log.length
    · -- the event at i was already in the log
      rw [List.getElem_append_left hcase] at hr
      obtain ⟨h1, ⟨hr2, h2⟩, h3⟩ := ih i hcase r hr
      refine ⟨h1, ⟨by omega, ?_⟩, ?_⟩
      · rw [List.getElem_append_left hr2]
        exact h2
      · intro j hj hne
        by_cases hjcase : j < log.length
        · rw [List.getElem_append_left hjcase]
          exact h3 j hjcase hne
        · have hjeq : j = log.length := by
            rw [hlen] at hj
            omega
          subst hjeq
          rw [List.getElem_concat_length log e log.length rfl hj]
          intro heref
          rw [heref] at href
          have hcons : consumedB log r = true :=
            (consumedB_iff log r).mpr ⟨i, hcase, hr⟩
          rw [Bool.and_eq_true, hcons] at href
          simp at href
    · -- the event at i is the newly appended one
      have hieq : i = log.length := by
        rw [hlen] at hi
        omega
      subst hieq
      rw [List.getElem_concat_length log e log.length rfl hi] at hr
      rw [hr, Bool.and_eq_true] at href
      obtain ⟨hsched, hnc⟩ := href
      obtain ⟨t, hget⟩ : ∃ t, log.get? r = some t := by
        cases hg : log.get? r with
        | none => rw [hg] at hsched; cases hsched
        | some t => exact ⟨t, rfl⟩
      obtain ⟨hrlen, hrt⟩ := List.get?_eq_some.mp hget
      rw [hget] at hsched
      refine ⟨hrlen, ⟨by omega, ?_⟩, ?_⟩
      · rw [List.getElem_append_left hrlen]
        have : log[r] = t := hrt
        rw [this]
        exact hsched
      · intro j hj hne
        have hjlt : j < log.length := by
          rw [hlen] at hj
          omega
        rw [List.getElem_append_left hjlt]
        intro hjref
        have hcons : consumedB log r = true :=
          (consumedB_iff log r).mpr ⟨j, hjlt, hjref⟩
        rw [hcons] at hnc
        cases hnc

/-- C6: for every valid log, `readHistory` returns events whose sequence
numbers are exactly `0, 1, 2, ...` — strictly increasing, gap-free and
duplicate-free — and every completion/failure event consumes the sequence
number of exactly one earlier scheduling event, each sequence number being
consumed at most once. -/
theorem readHistory_invariants (log : List EventKind) (hv : ValidLog log) :
    ((readHistory log).map Prod.fst = List.range log.length) ∧
    List.Pairwise (fun a b => a < b) ((readHistory log).map Prod.fst) ∧
    (∀ (i : Nat) (hi : i < log.length) (r : Nat), (log[i]).refOf = some r →
      r < i ∧
      (∃ hr : r < log.length, (log[r]).isScheduling = true) ∧
      (∀ (j : Nat) (hj : j < log.length), j ≠ i → (log[j]).refOf ≠ some r)) := by
  refine ⟨List.enum_map_fst log, ?_, validLog_refs log hv⟩
  rw [readHistory, List.enum_map_fst log]
  exact List.pairwise_lt_range log.length

/-- Witness for C6 on a concrete valid three-event log. -/
theorem readHistory_invariants_witness :
    ValidLog [EventKind.actSched "runDocIntel" Json.null,
      EventKind.actCompleted 0 Json.null,
      EventKind.orchCompleted (Except.ok Json.null)] ∧
    ((readHistory [EventKind.actSched "runDocIntel" Json.null,
        EventKind.actCompleted 0 Json.null,
        EventKind.orchCompleted (Except.ok Json.null)]).map Prod.fst =
      List.range 3) := by
  have h0 : ValidLog [EventKind.actSched "runDocIntel" Json.null] :=
    ValidLog.snoc [] (EventKind.actSched "runDocIntel" Json.null)
      ValidLog.nil (by decide)
  have h1 : ValidLog [EventKind.actSched "runDocIntel" Json.null,
      EventKind.actCompleted 0 Json.null] :=
    ValidLog.snoc [EventKind.actSched "runDocIntel" Json.null]
      (EventKind.actCompleted 0 Json.null) h0 (by decide)
  have h2 : ValidLog [EventKind.actSched "runDocIntel" Json.null,
      EventKind.actCompleted 0 Json.null,
      EventKind.orchCompleted (Except.ok Json.null)] :=
    ValidLog.snoc [EventKind.actSched "runDocIntel" Json.null,
        EventKind.actCompleted 0 Json.null]
      (EventKind.orchCompleted (Except.ok Json.null)) h1 (by decide)
  exact ⟨h2, (readHistory_invariants _ h2).1⟩

/-- Number of completion/failure events consuming sequence number `r`. -/
def countRef (log : List EventKind) (r : Nat) : Nat :=
  log.countP (fun e => e.refOf == some r)

/-- An unconsumed sequence number has no consuming event. -/
theorem countRef_eq_zero (log : List EventKind) (r : Nat)
    (h : consumedB log r = false) : countRef log r = 0 := by
  rw [countRef, List.countP_eq_zero]
  intro e he
  intro hbeq
  have : consumedB log r = true := List.any_eq_true.mpr ⟨e, he, hbeq⟩
  rw [this] at h
  cases h

/-- Extraction of the append guard for an activity-completion event. -/
theorem okAppend_actCompleted (log : List EventKind) (s : Nat) (w : Json)
    (h : okAppend log (EventKind.actCompleted s w) = true) :
    consumedB log s = false := by
  rw [okAppend, Bool.and_eq_true] at h
  have h2 := h.2
  have : EventKind.refOf (EventKind.actCompleted s w) = some s := rfl
  rw [this, Bool.and_eq_true] at h2
  cases hc : consumedB log s with
  | false => rfl
  | true =>
    rw [hc] at h2
    simp at h2

/-- Modelled from the spec: the Activity Dispatcher's visible state while
handling one activity task — the instance's log, the number of times the
external collaborator has been invoked, and whether an attempt is in flight
(dispatched, result not yet appended). -/
structure DispatchState where
  log : List EventKind
  externalCalls : Nat
  inFlight : Bool

/-- Modelled from the spec: the Activity Dispatcher's transitions for the
activity scheduled at sequence number `s` with result `w` — dispatch an
attempt (one external call), crash between dispatch and log-append (the
in-flight result is lost), or append the completion (guarded by the log's
append discipline). -/
inductive DispatchStep (s : Nat) (w : Json) : DispatchState → DispatchState → Prop where
  | attempt (st : DispatchState) (h : st.inFlight = false)
      (hpend : consumedB st.log s = false) :
      DispatchStep s w st ⟨st.log, st.externalCalls + 1, true⟩
  | crash (st : DispatchState) (h : st.inFlight = true) :
      DispatchStep s w st ⟨st.log, st.externalCalls, false⟩
  | appendResult (st : DispatchState) (h : st.inFlight = true)
      (hok : okAppend st.log (EventKind.actCompleted s w) = true) :
      DispatchStep s w st
        ⟨st.log ++ [EventKind.actCompleted s w], st.externalCalls, false⟩

/-- C7: an attempt that crashes after dispatch but before log-append,
followed by a retry that appends, is a run of the dispatcher in which the
external call executed twice but the final history holds exactly one
`ActivityCompleted` event for the activity's sequence number; a second
completion append for that sequence number is rejected, and every reachable
dispatcher state keeps a valid log with at most one completion for it. -/
theorem dispatch_crash_retry (log : List EventKind) (s : Nat) (w : Json)
    (hv : ValidLog log)
    (hok : okAppend log (EventKind.actCompleted s w) = true) :
    Relation.ReflTransGen (DispatchStep s w) ⟨log, 0, false⟩
      ⟨log ++ [EventKind.actCompleted s w], 2, false⟩ ∧
    countRef (log ++ [EventKind.actCompleted s w]) s = 1 ∧
    ValidLog (log ++ [EventKind.actCompleted s w]) ∧
    (∀ w' : Json, okAppend (log ++ [EventKind.actCompleted s w])
      (EventKind.actCompleted s w') = false) ∧
    (∀ st : DispatchState,
      Relation.ReflTransGen (DispatchStep s w) ⟨log, 0, false⟩ st →
      ValidLog st.log ∧ countRef st.log s ≤ 1) := by
  have hcons : consumedB log s = false := okAppend_actCompleted log s w hok
  have hcount : countRef (log ++ [EventKind.actCompleted s w]) s = 1 := by
    rw [countRef, List.countP_append]
    have h0 : countRef log s = 0 := countRef_eq_zero log s hcons
    rw [countRef] at h0
    rw [h0]
    simp [List.countP_cons, EventKind.refOf]
  refine ⟨?_, hcount, ValidLog.snoc log _ hv hok, ?_, ?_⟩
  · refine Relation.ReflTransGen.head
      (DispatchStep.attempt ⟨log, 0, false⟩ rfl hcons) ?_
    refine Relation.ReflTransGen.head
      (DispatchStep.crash ⟨log, 1, true⟩ rfl) ?_
    refine Relation.ReflTransGen.head
      (DispatchStep.attempt ⟨log, 1, false⟩ rfl hcons) ?_
    exact Relation.ReflTransGen.single
      (DispatchStep.appendResult ⟨log, 2, true⟩ rfl hok)
  · intro w'
    have hcons2 : consumedB (log ++ [EventKind.actCompleted s w]) s = true := by
      refine (consumedB_iff _ _).mpr ⟨log.length, by simp, ?_⟩
      rw [List.getElem_concat_length log _ log.length rfl (by simp)]
      rfl
    have hred : okAppend (log ++ [EventKind.actCompleted s w])
        (EventKind.actCompleted s w') =
        (((log ++ [EventKind.actCompleted s w]).all fun t => !t.isTerminalEvent) &&
          ((match (log ++ [EventKind.actCompleted s w]).get? s with
            | some t => t.isScheduling
            | none => false) &&
            !consumedB (log ++ [EventKind.actCompleted s w]) s)) := rfl
    rw [hred, hcons2]
    simp
  · intro st hreach
    induction hreach with
    | refl => exact ⟨hv, by rw [countRef_eq_zero log s hcons]; omega⟩
    | @tail st2 st3 hsteps hstep ih =>
      obtain ⟨ihv, ihc⟩ := ih
      cases hstep with
      | attempt h hpend => exact ⟨ihv, ihc⟩
      | crash h => exact ⟨ihv, ihc⟩
      | appendResult h hok2 =>
        refine ⟨ValidLog.snoc st2.log _ ihv hok2, ?_⟩
        have hcons3 : consumedB st2.log s = false :=
          okAppend_actCompleted st2.log s w hok2
        rw [countRef, List.countP_append]
        have h0 : countRef st2.log s = 0 := countRef_eq_zero st2.log s hcons3
        rw [countRef] at h0
        rw [h0]
        simp [List.countP_cons, EventKind.refOf]

/-- Witness for C7: the crash-retry run over a one-event log with the
activity scheduled at sequence number 0. -/
theorem dispatch_crash_retry_witness :
    Relation.ReflTransGen (DispatchStep 0 Json.null)
      ⟨[EventKind.actSched "runDocIntel" Json.null], 0, false⟩
      ⟨[EventKind.actSched "runDocIntel" Json.null,
        EventKind.actCompleted 0 Json.null], 2, false⟩ ∧
    countRef [EventKind.actSched "runDocIntel" Json.null,
      EventKind.actCompleted 0 Json.null] 0 = 1 := by
  have hv : ValidLog [EventKind.actSched "runDocIntel" Json.null] :=
    ValidLog.snoc [] (EventKind.actSched "runDocIntel" Json.null)
      ValidLog.nil (by decide)
  have h := dispatch_crash_retry [EventKind.actSched "runDocIntel" Json.null]
    0 Json.null hv (by decide)
  exact ⟨h.1, h.2.1⟩

/-- Status of a workflow instance (spec section 4.5's state machine, with the
pre-first-event `created` state). -/
inductive InstanceStatus where
  | created : InstanceStatus
  | running : InstanceStatus
  | completed (v : Json) : InstanceStatus
  | failed (e : String) : InstanceStatus

/-- Whether a status is terminal. -/
def isTerminalStatus : InstanceStatus → Bool
  | InstanceStatus.completed _ => true
  | InstanceStatus.failed _ => true
  | _ => false

/-- Modelled from the spec: one transition of the per-instance status machine
on a history event — `Created → Running` on a scheduling event,
`Running → Completed/Failed` on `OrchestrationCompleted`, terminal states
absorbing. -/
def statusStep (st : InstanceStatus) (e : EventKind) : InstanceStatus :=
  match st with
  | InstanceStatus.completed v => InstanceStatus.completed v
  | InstanceStatus.failed err => InstanceStatus.failed err
  | _ =>
    match e with
    | EventKind.orchCompleted (Except.ok v) => InstanceStatus.completed v
    | EventKind.orchCompleted (Except.error err) => InstanceStatus.failed err
    | EventKind.actSched _ _ => InstanceStatus.running
    | EventKind.subSched _ _ => InstanceStatus.running
    | _ => st

/-- The instance status derived from a history. -/
def statusOf (log : List EventKind) : InstanceStatus :=
  log.foldl statusStep InstanceStatus.created

/-- Modelled from the spec: `queryStatus(instanceId)` — a read-only
projection over the Event Log's `readHistory`, nothing separately stored. -/
def queryStatus (log : List EventKind) : InstanceStatus :=
  ((readHistory log).map Prod.snd).foldl statusStep InstanceStatus.created

/-- A terminal status absorbs every further event. -/
theorem statusStep_terminal (st : InstanceStatus) (e : EventKind)
    (h : isTerminalStatus st = true) : statusStep st e = st := by
  cases st with
  | completed v => rfl
  | failed err => rfl
  | created => cases h
  | running => cases h

/-- C8: the status state machine — `created` on the empty history, `running`
after the first scheduling event, and once terminal no sequence of further
events changes the status; and `queryStatus` is exactly the fold of the
status machine over `readHistory`, a pure projection of the Event Log. -/
theorem status_machine :
    (statusOf [] = InstanceStatus.created) ∧
    (∀ (log : List EventKind) (e : EventKind),
      statusOf log = InstanceStatus.created → e.isScheduling = true →
      statusOf (log ++ [e]) = InstanceStatus.running) ∧
    (∀ log tl : List EventKind, isTerminalStatus (statusOf log) = true →
      statusOf (log ++ tl) = statusOf log) ∧
    (∀ log : List EventKind, queryStatus log = statusOf log) := by
  refine ⟨rfl, ?_, ?_, ?_⟩
  · intro log e hcu hsched
    rw [statusOf, List.foldl_append]
    rw [statusOf] at hcu
    rw [hcu]
    cases e with
    | actSched n i => rfl
    | subSched n i => rfl
    | actCompleted r v => cases hsched
    | actFailed r err => cases hsched
    | subCompleted r v => cases hsched
    | subFailed r err => cases hsched
    | orchCompleted o => cases hsched
  · intro log tl hterm
    rw [statusOf, List.foldl_append]
    rw [statusOf] at hterm
    induction tl generalizing log with
    | nil => rfl
    | cons e tl ih =>
      rw [List.foldl_cons, statusStep_terminal _ e hterm]
      exact ih log hterm
  · intro log
    rw [queryStatus, readHistory, List.enum_map_snd log, statusOf]

/-- Witness for C8: a scheduling event moves a fresh instance to `running`,
and a completed instance's status survives a further appended event. -/
theorem status_machine_witness :
    statusOf [EventKind.actSched "runDocIntel" Json.null] =
      InstanceStatus.running ∧
    statusOf [EventKind.actSched "runDocIntel" Json.null,
      EventKind.orchCompleted (Except.ok Json.null),
      EventKind.actSched "x" Json.null] =
      statusOf [EventKind.actSched "runDocIntel" Json.null,
        EventKind.orchCompleted (Except.ok Json.null)] ∧
    queryStatus [EventKind.actSched "runDocIntel" Json.null] =
      statusOf [EventKind.actSched "runDocIntel" Json.null] :=
  ⟨status_machine.2.1 [] (EventKind.actSched "runDocIntel" Json.null) rfl rfl,
   status_machine.2.2.1 [EventKind.actSched "runDocIntel" Json.null,
      EventKind.orchCompleted (Except.ok Json.null)]
     [EventKind.actSched "x" Json.null] rfl,
   status_machine.2.2.2 [EventKind.actSched "runDocIntel" Json.null]⟩

/-- Modelled from the spec: the next action of an orchestration's logic. -/
inductive ProgStep where
  | call (name : String) (input : Json) : ProgStep
  | ret (v : Except String Json) : ProgStep

/-- Modelled from the spec: a deterministic orchestration program — per the
spec's determinism rule a pure function of the activity results delivered so
far, yielding the next awaited call or the final return. -/
def OrchProgram : Type := List Json → ProgStep

/-- Modelled from the spec: the scheduler's in-memory continuation state,
fully reconstructible from the log — the results delivered to the
continuation, the pending await, the activity tasks dispatched during live
execution, the `ReplayDivergence` flag, and the instance outcome. -/
structure SchedState where
  delivered : List Json
  pendingSeq : Option Nat
  dispatched : List (Nat × String × Json)
  aborted : Bool
  outcome : Option (Except String Json)

/-- A replay/execution configuration: position in the recorded history plus
the reconstructed scheduler state. -/
structure ReplayConfig where
  cursor : Nat
  st : SchedState

/-- The empty starting configuration (replay from sequence 0). -/
def initReplay : ReplayConfig :=
  ⟨0, ⟨[], none, [], false, none⟩⟩

/-- Modelled from the spec: one step of the Replay Engine / Orchestration
Scheduler over the recorded history `H`.  While the cursor is inside `H`
the engine consumes recorded events without dispatching (replay mode),
verifying each recorded scheduling decision against the program and flagging
`ReplayDivergence` on mismatch; past the end of `H` it falls back to live
dispatch, which appends the task to the dispatched side effects. -/
inductive ReplayStep (prog : OrchProgram) (H : List EventKind) :
    ReplayConfig → ReplayConfig → Prop where
  | sched (cfg : ReplayConfig) (name : String) (input : Json)
      (hc : H.get? cfg.cursor = some (EventKind.actSched name input))
      (hpend : cfg.st.pendingSeq = none) (hab : cfg.st.aborted = false)
      (hout : cfg.st.outcome = none)
      (hmatch : prog cfg.st.delivered = ProgStep.call name input) :
      ReplayStep prog H cfg
        ⟨cfg.cursor + 1, { cfg.st with pendingSeq := some cfg.cursor }⟩
  | schedDiverge (cfg : ReplayConfig) (name : String) (input : Json)
      (hc : H.get? cfg.cursor = some (EventKind.actSched name input))
      (hpend : cfg.st.pendingSeq = none) (hab : cfg.st.aborted = false)
      (hout : cfg.st.outcome = none)
      (hmismatch : prog cfg.st.delivered ≠ ProgStep.call name input) :
      ReplayStep prog H cfg
        ⟨cfg.cursor + 1, { cfg.st with aborted := true }⟩
  | completedEvt (cfg : ReplayConfig) (r : Nat) (w : Json)
      (hc : H.get? cfg.cursor = some (EventKind.actCompleted r w))
      (hpend : cfg.st.pendingSeq = some r) (hab : cfg.st.aborted = false)
      (hout : cfg.st.outcome = none) :
      ReplayStep prog H cfg
        ⟨cfg.cursor + 1,
         { cfg.st with delivered := cfg.st.delivered ++ [w], pendingSeq := none }⟩
  | failedEvt (cfg : ReplayConfig) (r : Nat) (err : String)
      (hc : H.get? cfg.cursor = some (EventKind.actFailed r err))
      (hpend : cfg.st.pendingSeq = some r) (hab : cfg.st.aborted = false)
      (hout : cfg.st.outcome = none) :
      ReplayStep prog H cfg
        ⟨cfg.cursor + 1,
         { cfg.st with pendingSeq := none, outcome := some (Except.error err) }⟩
  | orchDone (cfg : ReplayConfig) (v : Except String Json)
      (hc : H.get? cfg.cursor = some (EventKind.orchCompleted v))
      (hpend : cfg.st.pendingSeq = none) (hab : cfg.st.aborted = false)
      (hout : cfg.st.outcome = none) :
      ReplayStep prog H cfg
        ⟨cfg.cursor + 1, { cfg.st with outcome := some v }⟩
  | dispatchLive (cfg : ReplayConfig) (name : String) (input : Json)
      (hc : H.get? cfg.cursor = none)
      (hpend : cfg.st.pendingSeq = none) (hab : cfg.st.aborted = false)
      (hout : cfg.st.outcome = none)
      (hmatch : prog cfg.st.delivered = ProgStep.call name input) :
      ReplayStep prog H cfg
        ⟨cfg.cursor + 1,
         { cfg.st with pendingSeq := some cfg.cursor, dispatched := cfg.st.dispatched ++ [(cfg.cursor, name, input)] }⟩

/-- Exactly `n` engine steps. -/
inductive StepsN (R : ReplayConfig → ReplayConfig → Prop) :
    Nat → ReplayConfig → ReplayConfig → Prop where
  | zero (c : ReplayConfig) : StepsN R 0 c c
  | succ (n : Nat) (a b c : ReplayConfig) (hab : R a b)
      (hbc : StepsN R n b c) : StepsN R (n + 1) a c

/-- Each engine step is uniquely determined by the configuration. -/
theorem replayStep_det (prog : OrchProgram) (H : List EventKind)
    (c c₁ c₂ : ReplayConfig) (h1 : ReplayStep prog H c c₁)
    (h2 : ReplayStep prog H c c₂) : c₁ = c₂ := by
  cases h1 <;> cases h2 <;>
    simp_all [show ∀ (l : List EventKind) (n : Nat), l.length ≤ n → l[n]? = none from
      fun l n h => List.getElem?_eq_none h]

/-- Each engine step advances the cursor by one. -/
theorem replayStep_cursor (prog : OrchProgram) (H : List EventKind)
    (c c' : ReplayConfig) (h : ReplayStep prog H c c') :
    c'.cursor = c.cursor + 1 := by
  cases h <;> rfl

/-- A step taken inside the recorded history dispatches nothing. -/
theorem replayStep_dispatched (prog : OrchProgram) (H : List EventKind)
    (c c' : ReplayConfig) (h : ReplayStep prog H c c')
    (hin : c.cursor < H.length) : c'.st.dispatched = c.st.dispatched := by
  cases h with
  | dispatchLive name input hc hpend hab hout hmatch =>
    rw [List.get?_eq_none] at hc
    omega
  | sched name input hc hpend hab hout hmatch => rfl
  | schedDiverge name input hc hpend hab hout hmismatch => rfl
  | completedEvt r w hc hpend hab hout => rfl
  | failedEvt r err hc hpend hab hout => rfl
  | orchDone v hc hpend hab hout => rfl

/-- The cursor after `n` steps. -/
theorem stepsN_cursor (prog : OrchProgram) (H : List EventKind)
    (n : Nat) (a c : ReplayConfig)
    (h : StepsN (ReplayStep prog H) n a c) : c.cursor = a.cursor + n := by
  induction h with
  | zero c => rfl
  | succ n a b c hab hbc ih =>
    rw [ih, replayStep_cursor prog H a b hab]
    omega

/-- Runs that stay inside the recorded history leave the dispatched side
effects unchanged. -/
theorem stepsN_dispatched (prog : OrchProgram) (H : List EventKind)
    (n : Nat) (a c : ReplayConfig)
    (h : StepsN (ReplayStep prog H) n a c) (hin : c.cursor ≤ H.length) :
    c.st.dispatched = a.st.dispatched := by
  induction h with
  | zero c => rfl
  | succ n a b c hab hbc ih =>
    have hbc' : c.cursor = b.cursor + n := stepsN_cursor prog H n b c hbc
    have hba : b.cursor = a.cursor + 1 := replayStep_cursor prog H a b hab
    rw [ih (by omega), replayStep_dispatched prog H a b hab (by omega)]

/-- Equal-length runs from a common configuration coincide. -/
theorem stepsN_det (prog : OrchProgram) (H : List EventKind) (n : Nat) :
    ∀ a c₁ c₂ : ReplayConfig, StepsN (ReplayStep prog H) n a c₁ →
      StepsN (ReplayStep prog H) n a c₂ → c₁ = c₂ := by
  induction n with
  | zero =>
    intro a c₁ c₂ h1 h2
    cases h1
    cases h2
    rfl
  | succ n ih =>
    intro a c₁ c₂ h1 h2
    cases h1 with
    | succ _ _ b₁ _ hab₁ hbc₁ =>
      cases h2 with
      | succ _ _ b₂ _ hab₂ hbc₂ =>
        have hb : b₁ = b₂ := replayStep_det prog H a b₁ b₂ hab₁ hab₂
        subst hb
        exact ih b₁ c₁ c₂ hbc₁ hbc₂

/-- C5: the replay engine is deterministic — a configuration has at most one
successor, so replaying a history `H` from the empty state twice (any two
runs of equal length from `initReplay`) reconstructs identical in-memory
continuation state — and as long as the cursor stays within the recorded
history (replay mode) no new dispatch side effects are produced. -/
theorem replay_engine_deterministic :
    (∀ (prog : OrchProgram) (H : List EventKind) (c c₁ c₂ : ReplayConfig),
      ReplayStep prog H c c₁ → ReplayStep prog H c c₂ → c₁ = c₂) ∧
    (∀ (prog : OrchProgram) (H : List EventKind) (n : Nat)
      (c₁ c₂ : ReplayConfig),
      StepsN (ReplayStep prog H) n initReplay c₁ →
      StepsN (ReplayStep prog H) n initReplay c₂ → c₁ = c₂) ∧
    (∀ (prog : OrchProgram) (H : List EventKind) (n : Nat) (c : ReplayConfig),
      StepsN (ReplayStep prog H) n initReplay c → c.cursor ≤ H.length →
      c.st.dispatched = []) :=
  ⟨replayStep_det,
   fun prog H n c₁ c₂ h1 h2 => stepsN_det prog H n initReplay c₁ c₂ h1 h2,
   fun prog H n c h hin => stepsN_dispatched prog H n initReplay c h hin⟩

/-- A concrete one-call orchestration program for the witness. -/
def demoProg : OrchProgram := fun delivered =>
  if delivered.length = 0 then ProgStep.call "runDocIntel" Json.null
  else ProgStep.ret (Except.ok Json.null)

/-- A concrete recorded history for the witness. -/
def demoHistory : List EventKind :=
  [EventKind.actSched "runDocIntel" Json.null,
   EventKind.actCompleted 0 Json.null]

/-- Witness for C5: replaying the two-event demo history reconstructs the
suspended state with one delivered result, and two equal-length replays agree
while dispatching nothing. -/
theorem replay_engine_deterministic_witness :
    StepsN (ReplayStep demoProg demoHistory) 2 initReplay
      ⟨2, ⟨[Json.null], none, [], false, none⟩⟩ ∧
    (⟨2, ⟨[Json.null], none, [], false, none⟩⟩ : ReplayConfig).st.dispatched = [] := by
  have hs1 : ReplayStep demoProg demoHistory initReplay
      ⟨1, ⟨[], some 0, [], false, none⟩⟩ :=
    ReplayStep.sched initReplay "runDocIntel" Json.null rfl rfl rfl rfl rfl
  have hs2 : ReplayStep demoProg demoHistory ⟨1, ⟨[], some 0, [], false, none⟩⟩
      ⟨2, ⟨[Json.null], none, [], false, none⟩⟩ :=
    ReplayStep.completedEvt ⟨1, ⟨[], some 0, [], false, none⟩⟩ 0 Json.null
      rfl rfl rfl rfl
  have hrun : StepsN (ReplayStep demoProg demoHistory) 2 initReplay
      ⟨2, ⟨[Json.null], none, [], false, none⟩⟩ :=
    StepsN.succ 1 initReplay ⟨1, ⟨[], some 0, [], false, none⟩⟩
      ⟨2, ⟨[Json.null], none, [], false, none⟩⟩ hs1
      (StepsN.succ 0 ⟨1, ⟨[], some 0, [], false, none⟩⟩
        ⟨2, ⟨[Json.null], none, [], false, none⟩⟩
        ⟨2, ⟨[Json.null], none, [], false, none⟩⟩ hs2
        (StepsN.zero ⟨2, ⟨[Json.null], none, [], false, none⟩⟩))
  exact ⟨hrun,
    replay_engine_deterministic.2.2 demoProg demoHistory 2
      ⟨2, ⟨[Json.null], none, [], false, none⟩⟩ hrun (by decide)⟩

end Pipeline
